import Mathlib

/-!
Verification development for the Albion geological-modelling plugin
(`albion/project.py`, `albion/plugin.py`, `albion-master/similog/similog.py`,
`albion-master/tests/test_graph.py`).

The plugin's domain logic (possible-edge generation, node parent resolution,
cascade deletes, dynamic end nodes) lives in SQL views and triggers that are
invoked but not shipped with the inspected source; those parts are modelled
from the specification and from the expectations recorded in the test suite
(`test_graph.py`).  The Python-level pieces (`get_statements`, `find_in_dir`,
the export/import pipeline, connection handling, dependency probing) are
embedded directly from the source.
-/

namespace Albion

/-- A collar (drill-hole head) position.  Modelled from the spec: holes carry
an identifier and a planar collar position; the reference fixture's collars
are reconstructed from the test suite's cell and distance expectations. -/
structure Hole where
  id : String
  x : ℚ
  y : ℚ
deriving DecidableEq, Repr

/-- A row of `albion.node`: a depth interval (`from_`, `to_`) on a hole within
a graph, plus the `parent` reference maintained for child graphs
(columns as used by `Project.add_to_graph_node` and `test_graph.py`). -/
structure Node where
  id : Nat
  holeId : String
  from_ : ℚ
  to_ : ℚ
  parent : Option Nat
  graphId : String
deriving DecidableEq, Repr

/-- A row of `albion.cell`: a triangle of holes, as checked by
`test_triangulate` (`SELECT id, a, b, c FROM albion.cell`). -/
structure Cell where
  id : String
  a : String
  b : String
  c : String
deriving DecidableEq, Repr

/-- The thresholds of `albion.metadata` used by the correlation gate
(`correlation_angle`, `parent_correlation_angle`), in degrees. -/
structure Metadata where
  correlation_angle : ℚ
  parent_correlation_angle : ℚ
deriving DecidableEq, Repr

/-- The database state observed by the orchestration layer: the tables read
and written by the graph-related methods of `Project`.  `graph` rows are
`(id, aux)` pairs as in `SELECT * FROM albion.graph` (the second column is
`NULL` in every test observation); `edge` rows are `(start_, end_, graph_id)`;
`end_node` rows are `(node_id, hole_id, graph_id)`. -/
structure DBState where
  graph : List (String × Option String)
  graph_relationship : List (String × String)
  node : List Node
  edge : List (Nat × Nat × String)
  end_node : List (Nat × String × String)
  hole : List Hole
  cell : List Cell
  metadata : Metadata
  next_id : Nat
deriving DecidableEq, Repr

/-! ### Parent resolution (modelled from the spec) -/

/-- Midpoint of a node's depth interval. -/
def zmid (n : Node) : ℚ := (n.from_ + n.to_) / 2

/-- Modelled from the spec: distance between two depth intervals, used for
"nearest-depth-interval matching" of child nodes against the parent graph. -/
def intervalDist (m n : Node) : ℚ := |zmid m - zmid n|

/-- Nodes of graph `p` on the same hole as `n`: the candidates for `n`'s
`parent` reference. -/
def candidateParents (nodes : List Node) (p : String) (n : Node) : List Node :=
  nodes.filter (fun m => m.graphId = p ∧ m.holeId = n.holeId)

/-- One step of the nearest-candidate scan: keep whichever of the current
best and the new candidate has the smaller interval distance to `n`
(ties keep the earlier row). -/
def nearerTo (n : Node) (best : Option Node) (m : Node) : Option Node :=
  match best with
  | none => some m
  | some b => if intervalDist m n < intervalDist b n then some m else some b

/-- Modelled from the spec: the id of the parent-graph node on the same hole
whose depth interval is nearest to `n`'s depth interval. -/
def nearestParent (nodes : List Node) (p : String) (n : Node) : Option Nat :=
  ((candidateParents nodes p n).foldl (nearerTo n) none).map (fun m => m.id)

/-- The parent graphs of `g` recorded in `albion.graph_relationship`
(rows are `(parent_id, child_id)`). -/
def parentsOf (rels : List (String × String)) (g : String) : List String :=
  (rels.filter (fun r => r.2 = g)).map (fun r => r.1)

/-- Modelled from the spec: the `parent` value a node must carry — `none` for
nodes of a root graph, otherwise the nearest-interval node of the referenced
parent graph. -/
def resolveParent (rels : List (String × String)) (nodes : List Node) (n : Node) :
    Option Nat :=
  match parentsOf rels n.graphId with
  | [] => none
  | p :: _ => nearestParent nodes p n

/-- Replace a node's `parent` field, leaving every other column unchanged. -/
def setParent (π : Node → Option Nat) (n : Node) : Node :=
  ⟨n.id, n.holeId, n.from_, n.to_, π n, n.graphId⟩

/-- Rewrite every node's `parent` field according to `resolveParent`; this
models the database triggers that keep child-graph `parent` references up to
date whenever the node table changes. -/
def recomputeParents (s : DBState) : DBState :=
  { s with node :=
      s.node.map (setParent (resolveParent s.graph_relationship s.node)) }

/-! ### Graph and node operations (`Project` methods over the modelled state) -/

/-- Modelled from the spec: `DELETE FROM albion.graph CASCADE WHERE id=g`
removes the graph row, every relationship row in which `g` appears on either
side, and every node, edge and end node of `g` (children themselves persist:
only the relationship row disappears). -/
def cascadeDeleteGraph (s : DBState) (g : String) : DBState :=
  { s with
    graph := s.graph.filter (fun r => r.1 ≠ g)
    graph_relationship := s.graph_relationship.filter (fun r => r.1 ≠ g ∧ r.2 ≠ g)
    node := s.node.filter (fun n => n.graphId ≠ g)
    edge := s.edge.filter (fun e => e.2.2 ≠ g)
    end_node := s.end_node.filter (fun e => e.2.2 ≠ g) }

/-- `Project.delete_graph`: the cascade delete, followed by the trigger-level
recomputation of the remaining `parent` references. -/
def delete_graph (s : DBState) (g : String) : DBState :=
  recomputeParents (cascadeDeleteGraph s g)

/-- `Project.new_graph`: delete any existing graph `g` (cascade, no warning),
insert a fresh `(g, NULL)` row, and insert one relationship row per
referenced parent. -/
def new_graph (s : DBState) (g : String) (references : List String) : DBState :=
  let s1 := cascadeDeleteGraph s g
  recomputeParents
    { s1 with
      graph := s1.graph ++ [(g, none)]
      graph_relationship :=
        s1.graph_relationship ++ references.map (fun p => (p, g)) }

/-- An input feature of `Project.add_to_graph_node`: `(from_, to_, hole_id)`. -/
structure Feature where
  from_ : ℚ
  to_ : ℚ
  hole_id : String
deriving DecidableEq, Repr

/-- Rows inserted for a feature batch, with ids drawn from the serial
sequence starting at `start`. -/
def mkNodes (g : String) (start : Nat) : List Feature → List Node
  | [] => []
  | f :: fs => Node.mk start f.hole_id f.from_ f.to_ none g :: mkNodes g (start + 1) fs

/-- `Project.add_to_graph_node`: insert one node per feature (ids drawn from
the serial sequence), then let the triggers resolve `parent` references. -/
def add_to_graph_node (s : DBState) (g : String) (features : List Feature) : DBState :=
  recomputeParents
    { s with node := s.node ++ mkNodes g s.next_id features
             next_id := s.next_id + features.length }

/-- A direct `DELETE FROM albion.node WHERE …` as issued by the test suite,
followed by the trigger-level recomputation of `parent` references. -/
def delete_nodes (s : DBState) (p : Node → Bool) : DBState :=
  recomputeParents { s with node := s.node.filter (fun n => ¬ p n) }

/-! ### The possible-edge correlation gate (modelled from the spec) -/

/-- The three depth offsets (start, median, end point) between two nodes;
the correlation check passes if at least one of them does
(per the `albion.valid_offset` description in `test_offset_validity`). -/
def offsets (a b : Node) : List ℚ :=
  [|a.from_ - b.from_|, |zmid a - zmid b|, |a.to_ - b.to_|]

/-- The three offsets of a candidate child edge measured relative to its
reference (parent) edge, point by point. -/
def relOffsets (a b pa pb : Node) : List ℚ :=
  [|(b.from_ - a.from_) - (pb.from_ - pa.from_)|,
   |(zmid b - zmid a) - (zmid pb - zmid pa)|,
   |(b.to_ - a.to_) - (pb.to_ - pa.to_)|]

/-- Squared planar distance between two collars. -/
def holeDistSq (holes : List Hole) (h1 h2 : String) : ℚ :=
  match holes.find? (fun x => x.id = h1), holes.find? (fun x => x.id = h2) with
  | some p, some q => (p.x - q.x) * (p.x - q.x) + (p.y - q.y) * (p.y - q.y)
  | _, _ => 0

/-- Modelled from the spec: an offset `o` between two nodes on holes at
distance `d` passes an angle threshold `θ` (degrees) when `o < d·tan(θ)`,
i.e. when the offset angle `atan(o/d)` is below `θ`. -/
def OffsetPasses (holes : List Hole) (h1 h2 : String) (o : ℚ) (θ : ℚ) : Prop :=
  (o : ℝ) < Real.sqrt ((holeDistSq holes h1 h2 : ℚ) : ℝ) *
    Real.tan ((θ : ℝ) * Real.pi / 180)

/-- Modelled from the spec (`albion.valid_offset`): the offset between two
nodes is valid for threshold `θ` when at least one of the three point
offsets passes. -/
def ValidOffset (holes : List Hole) (a b : Node) (θ : ℚ) : Prop :=
  ∃ o ∈ offsets a b, OffsetPasses holes a.holeId b.holeId o θ

/-- Modelled from the spec: the relative offset of a candidate child edge
with respect to its reference edge is valid for threshold `θ` when at least
one of the three point-wise relative offsets passes. -/
def ValidRelativeOffset (holes : List Hole) (a b pa pb : Node) (θ : ℚ) : Prop :=
  ∃ o ∈ relOffsets a b pa pb, OffsetPasses holes a.holeId b.holeId o θ

/-- The threshold part of the possible-edge view, without the parent gate:
both nodes live in the same graph, on different holes, and their offset
passes the graph's `correlation_angle`. -/
def PlainPossibleEdge (s : DBState) (a b : Node) : Prop :=
  a ∈ s.node ∧ b ∈ s.node ∧ a.graphId = b.graphId ∧ a.holeId ≠ b.holeId ∧
    ValidOffset s.hole a b s.metadata.correlation_angle

/-- Modelled from the spec: the parent gate for child graphs.  The two child
nodes must carry `parent` references to nodes of the parent graph `p` on the
same holes, the referenced pair must itself pass the parent graph's
correlation gate, and the child edge's offset relative to that reference
edge must pass `parent_correlation_angle`. -/
def ParentCorrelationOk (s : DBState) (a b : Node) (p : String) : Prop :=
  ∃ pa ∈ s.node, ∃ pb ∈ s.node,
    a.parent = some pa.id ∧ b.parent = some pb.id ∧
    pa.graphId = p ∧ pb.graphId = p ∧
    pa.holeId = a.holeId ∧ pb.holeId = b.holeId ∧
    (PlainPossibleEdge s pa pb ∨ PlainPossibleEdge s pb pa) ∧
    ValidRelativeOffset s.hole a b pa pb s.metadata.parent_correlation_angle

/-- Modelled from the spec: the `albion.possible_edge` view.  A row
`(a.id, b.id)` exists when both nodes pass the correlation-angle gate and,
for every referenced parent graph, the parent gate as well. -/
def PossibleEdge (s : DBState) (a b : Node) : Prop :=
  PlainPossibleEdge s a b ∧ a.id < b.id ∧
    ∀ p ∈ parentsOf s.graph_relationship a.graphId, ParentCorrelationOk s a b p

/-- `Project.accept_possible_edge` copies every `possible_edge` row of the
graph into `albion.edge`; since the view is real-valued we specify the
result relationally: the new edge table extends the old one by a duplicate-free
batch listing exactly the possible edges of `g`. -/
def EdgesAccepted (s : DBState) (g : String) (s' : DBState) : Prop :=
  ∃ l : List (Nat × Nat × String),
    l.Nodup ∧
    (∀ e, e ∈ l ↔ ∃ a b, PossibleEdge s a b ∧ a.graphId = g ∧
      e = (a.id, b.id, g)) ∧
    s' = { s with edge := s.edge ++ l }

/-! ### End nodes (modelled from the spec) -/

/-- The holes sharing a triangulation cell with `h`: its neighbors. -/
def neighbors (cells : List Cell) (h : String) : List String :=
  (((cells.filter (fun c => h = c.a ∨ h = c.b ∨ h = c.c)).flatMap
    (fun c => [c.a, c.b, c.c])).filter (fun x => x ≠ h)).dedup

/-- Whether the graph has an accepted edge joining node `nid` to some node on
hole `h`. -/
def hasEdgeToward (s : DBState) (g : String) (nid : Nat) (h : String) : Bool :=
  s.edge.any (fun e => e.2.2 = g ∧
    ((e.1 = nid ∧ s.node.any (fun m => m.id = e.2.1 ∧ m.holeId = h)) ∨
     (e.2.1 = nid ∧ s.node.any (fun m => m.id = e.1 ∧ m.holeId = h))))

/-- Modelled from the spec: the `albion.dynamic_end_node` view — one row per
`(node, neighboring hole)` pair of the graph at which the accepted-edge
correlation chain is unmatched. -/
def dynamic_end_node (s : DBState) (g : String) : List (Nat × String × String) :=
  (s.node.filter (fun n => n.graphId = g)).flatMap (fun n =>
    (neighbors s.cell n.holeId).filterMap (fun h =>
      if hasEdgeToward s g n.id h then none else some (n.id, h, g)))

/-- One row of `INSERT … ON CONFLICT (node_id, hole_id, graph_id) DO
NOTHING`: append the row unless its key is already present. -/
def insertEndNode (acc : List (Nat × String × String))
    (r : Nat × String × String) : List (Nat × String × String) :=
  if acc.any (fun e => e.1 = r.1 ∧ e.2.1 = r.2.1 ∧ e.2.2 = r.2.2)
  then acc else acc ++ [r]

/-- `INSERT … ON CONFLICT (node_id, hole_id, graph_id) DO NOTHING`: insert the
rows one by one, skipping any row whose key is already present. -/
def insertEndNodes (rows acc : List (Nat × String × String)) :
    List (Nat × String × String) :=
  rows.foldl insertEndNode acc

/-- `Project.create_terminations`: insert the `dynamic_end_node` rows of the
graph into `albion.end_node` with `ON CONFLICT DO NOTHING`. -/
def create_terminations (s : DBState) (g : String) : DBState :=
  { s with end_node := insertEndNodes (dynamic_end_node s g) s.end_node }

/-! ### The reference fixture (modelled from the test suite) -/

/-- Collar positions of the reference fixture: holes 0–3, with hole 2 at
`(100, 100)` and hole 3 at `(200, 0)` as stated in `test_end_node`, and the
hole-0/hole-1 spacing of 100 implied by the angle arithmetic of
`test_offset_validity` and `test_add_to_graph_node_reference`. -/
def fixtureHoles : List Hole :=
  [⟨"0", 0, 0⟩, ⟨"1", 100, 0⟩, ⟨"2", 100, 100⟩, ⟨"3", 200, 0⟩]

/-- Triangulation cells of the fixture (`test_triangulate`). -/
def fixtureCells : List Cell :=
  [⟨"1", "2", "0", "1"⟩, ⟨"2", "2", "1", "3"⟩]

/-- The `reference_nodes` fixture: A(20–21) on hole 0, B(10–11) and C(40–41)
on hole 1 (serial ids continue from 3, as observed in the tests). -/
def referenceNodes : List Feature :=
  [⟨20, 21, "0"⟩, ⟨10, 11, "1"⟩, ⟨40, 41, "1"⟩]

/-- The `child_nodes` fixture: D(40–41) on hole 0, E(50–51) on hole 1. -/
def childNodes : List Feature :=
  [⟨40, 41, "0"⟩, ⟨50, 51, "1"⟩]

/-- The empty fixture database with the given angle thresholds. -/
def initState (θ pθ : ℚ) : DBState :=
  { graph := [], graph_relationship := [], node := [], edge := [], end_node := []
    hole := fixtureHoles, cell := fixtureCells
    metadata := ⟨θ, pθ⟩, next_id := 3 }

/-- The fixture after `new_graph("g")` and `add_to_graph_node` of the
reference nodes, with correlation angle `θ`. -/
def refState (θ : ℚ) : DBState :=
  add_to_graph_node (new_graph (initState θ 5) "g" []) "g" referenceNodes

/-- Node A as stored: id 3, hole 0, interval 20–21. -/
def refNode3 : Node := ⟨3, "0", 20, 21, none, "g"⟩

/-- Node B as stored: id 4, hole 1, interval 10–11. -/
def refNode4 : Node := ⟨4, "1", 10, 11, none, "g"⟩

/-- Node C as stored: id 5, hole 1, interval 40–41. -/
def refNode5 : Node := ⟨5, "1", 40, 41, none, "g"⟩

/-! ### Tangent bounds for the fixture's angle thresholds -/

/-- A threshold below the angle: `c < x < π/2` with `c ≥ 0` gives `c < tan x`. -/
theorem lt_tan_of_lt {x c : ℝ} (hc : 0 ≤ c) (hcx : c < x) (hx2 : x < Real.pi / 2) :
    c < Real.tan x :=
  lt_trans hcx (Real.lt_tan (lt_of_le_of_lt hc hcx) hx2)

/-- An upper bound on the tangent from `sin x < x` and `1 - x²/2 < cos x`:
if `x ≤ a`, `1 - a²/2 > 0` and `a < b·(1 - a²/2)` then `tan x < b`. -/
theorem tan_lt_of_le {x a b : ℝ} (hx : 0 < x) (hxa : x ≤ a)
    (h1 : 0 < 1 - a ^ 2 / 2) (hb : a < b * (1 - a ^ 2 / 2)) : Real.tan x < b := by
  have hsin : Real.sin x < a := lt_of_lt_of_le (Real.sin_lt hx) hxa
  have hcos : 1 - x ^ 2 / 2 < Real.cos x :=
    Real.one_sub_sq_div_two_lt_cos (ne_of_gt hx)
  have hcos2 : 1 - a ^ 2 / 2 ≤ 1 - x ^ 2 / 2 := by nlinarith
  have hcospos : 0 < Real.cos x := lt_of_lt_of_le h1 (le_trans hcos2 hcos.le)
  have hbpos : 0 < b := by nlinarith
  rw [Real.tan_eq_sin_div_cos, div_lt_iff₀ hcospos]
  nlinarith

/-- `tan 5° < 1/10`: an offset-to-distance ratio of `1/10` does not pass a
5-degree threshold. -/
theorem tan5_lt_tenth : Real.tan ((5 : ℝ) * Real.pi / 180) < 1 / 10 := by
  have hpi := Real.pi_lt_d6
  have hpos := Real.pi_pos
  refine tan_lt_of_le (by positivity) (le_of_lt ?_)
    (a := 3141593 / 36000000) (by norm_num) (by norm_num)
  nlinarith

/-- `1/10 < tan 10°`: a ratio of `1/10` passes a 10-degree threshold. -/
theorem tenth_lt_tan10 : (1 : ℝ) / 10 < Real.tan ((10 : ℝ) * Real.pi / 180) := by
  have hpi := Real.pi_gt_d6
  have hpos := Real.pi_pos
  refine lt_tan_of_lt (by norm_num) (by nlinarith) (by nlinarith)

/-- `tan 10° < 1/5`: a ratio of `1/5` does not pass a 10-degree threshold. -/
theorem tan10_lt_fifth : Real.tan ((10 : ℝ) * Real.pi / 180) < 1 / 5 := by
  have hpi := Real.pi_lt_d6
  have hpos := Real.pi_pos
  refine tan_lt_of_le (by positivity) (le_of_lt ?_)
    (a := 3141593 / 18000000) (by norm_num) (by norm_num)
  nlinarith

/-- `1/5 < tan 15°`: a ratio of `1/5` passes a 15-degree threshold. -/
theorem fifth_lt_tan15 : (1 : ℝ) / 5 < Real.tan ((15 : ℝ) * Real.pi / 180) := by
  have hpi := Real.pi_gt_d6
  have hpos := Real.pi_pos
  refine lt_tan_of_lt (by norm_num) (by nlinarith) (by nlinarith)

/-- `1/10 < tan 15°`. -/
theorem tenth_lt_tan15 : (1 : ℝ) / 10 < Real.tan ((15 : ℝ) * Real.pi / 180) :=
  lt_trans (by norm_num) fifth_lt_tan15

/-- `1/5 < tan 20°`: a ratio of `1/5` passes a 20-degree threshold. -/
theorem fifth_lt_tan20 : (1 : ℝ) / 5 < Real.tan ((20 : ℝ) * Real.pi / 180) := by
  have hpi := Real.pi_gt_d6
  have hpos := Real.pi_pos
  refine lt_tan_of_lt (by norm_num) (by nlinarith) (by nlinarith)

/-- `1/10 < tan 20°`. -/
theorem tenth_lt_tan20 : (1 : ℝ) / 10 < Real.tan ((20 : ℝ) * Real.pi / 180) :=
  lt_trans (by norm_num) fifth_lt_tan20

/-- On the fixture, holes 0 and 1 are 100 apart, so an offset passes a
threshold `θ` there exactly when `o < 100·tan(θ·π/180)`. -/
theorem offsetPasses01 (o θ : ℚ) :
    OffsetPasses fixtureHoles "0" "1" o θ ↔
      (o : ℝ) < 100 * Real.tan ((θ : ℝ) * Real.pi / 180) := by
  have hd : holeDistSq fixtureHoles "0" "1" = 10000 := by
    norm_num +decide [holeDistSq, fixtureHoles, List.find?]
  unfold OffsetPasses
  rw [hd]
  have : ((10000 : ℚ) : ℝ) = (100 : ℝ) ^ 2 := by norm_num
  rw [this, Real.sqrt_sq (by norm_num : (0 : ℝ) ≤ 100)]

/-- The reference fixture stores exactly nodes 3, 4, 5 (ids continue the
serial sequence), independently of the configured angle. -/
theorem refState_node (θ : ℚ) : (refState θ).node = [refNode3, refNode4, refNode5] := rfl

/-- The fixture's collars. -/
theorem refState_hole (θ : ℚ) : (refState θ).hole = fixtureHoles := rfl

/-- The reference graph has no parent relationship. -/
theorem refState_rels (θ : ℚ) : (refState θ).graph_relationship = [] := rfl

/-- The fixture's thresholds: `correlation_angle = θ`,
`parent_correlation_angle = 5`. -/
theorem refState_metadata (θ : ℚ) : (refState θ).metadata = ⟨θ, 5⟩ := rfl

/-- The three point offsets between nodes 3 and 4 all equal 10. -/
theorem offsets_34 : offsets refNode3 refNode4 = [10, 10, 10] := by
  norm_num [offsets, zmid, refNode3, refNode4]

/-- The three point offsets between nodes 3 and 5 all equal 20. -/
theorem offsets_35 : offsets refNode3 refNode5 = [20, 20, 20] := by
  norm_num [offsets, zmid, refNode3, refNode5]

/-- The node-3/node-4 offset is valid for `θ` iff `10 < 100·tan θ`. -/
theorem validOffset_34 (θ : ℚ) :
    ValidOffset fixtureHoles refNode3 refNode4 θ ↔
      ((10 : ℚ) : ℝ) < 100 * Real.tan ((θ : ℝ) * Real.pi / 180) := by
  unfold ValidOffset
  rw [offsets_34]
  constructor
  · rintro ⟨o, ho, hp⟩
    have h : o = 10 := by simpa using ho
    subst h
    exact (offsetPasses01 10 θ).mp hp
  · intro h
    exact ⟨10, by simp, (offsetPasses01 10 θ).mpr h⟩

/-- The node-3/node-5 offset is valid for `θ` iff `20 < 100·tan θ`. -/
theorem validOffset_35 (θ : ℚ) :
    ValidOffset fixtureHoles refNode3 refNode5 θ ↔
      ((20 : ℚ) : ℝ) < 100 * Real.tan ((θ : ℝ) * Real.pi / 180) := by
  unfold ValidOffset
  rw [offsets_35]
  constructor
  · rintro ⟨o, ho, hp⟩
    have h : o = 20 := by simpa using ho
    subst h
    exact (offsetPasses01 20 θ).mp hp
  · intro h
    exact ⟨20, by simp, (offsetPasses01 20 θ).mpr h⟩

/-- On the reference fixture the possible edges are exactly the pairs (3,4)
and (3,5) whose offset is valid for the configured correlation angle. -/
theorem possibleEdge_refState_char (θ : ℚ) (a b : Node) :
    PossibleEdge (refState θ) a b ↔
      (a = refNode3 ∧ b = refNode4 ∧ ValidOffset fixtureHoles refNode3 refNode4 θ) ∨
      (a = refNode3 ∧ b = refNode5 ∧ ValidOffset fixtureHoles refNode3 refNode5 θ) := by
  constructor
  · rintro ⟨⟨ha, hb, hg, hh, hoff⟩, hid, hpar⟩
    rw [refState_node] at ha hb
    simp only [List.mem_cons, List.mem_singleton, List.not_mem_nil, or_false] at ha hb
    rcases ha with rfl | rfl | rfl <;> rcases hb with rfl | rfl | rfl
    · exact absurd rfl hh
    · exact Or.inl ⟨rfl, rfl, hoff⟩
    · exact Or.inr ⟨rfl, rfl, hoff⟩
    · exact absurd hid (by norm_num [refNode3, refNode4])
    · exact absurd rfl hh
    · exact absurd rfl hh
    · exact absurd hid (by norm_num [refNode3, refNode5])
    · exact absurd rfl hh
    · exact absurd rfl hh
  · have hmem3 : refNode3 ∈ (refState θ).node := by rw [refState_node]; simp
    have hmem4 : refNode4 ∈ (refState θ).node := by rw [refState_node]; simp
    have hmem5 : refNode5 ∈ (refState θ).node := by rw [refState_node]; simp
    have hpar : ∀ p ∈ parentsOf (refState θ).graph_relationship "g", False := by
      intro p hp
      rw [refState_rels] at hp
      simp [parentsOf] at hp
    rintro (⟨rfl, rfl, hv⟩ | ⟨rfl, rfl, hv⟩)
    · exact ⟨⟨hmem3, hmem4, rfl, by decide, hv⟩, by decide,
        fun p hp => absurd hp (fun h => hpar p h)⟩
    · exact ⟨⟨hmem3, hmem5, rfl, by decide, hv⟩, by decide,
        fun p hp => absurd hp (fun h => hpar p h)⟩

/-- At a 5-degree correlation angle the fixture has no possible edge. -/
theorem possibleEdge_refState5 (a b : Node) : ¬ PossibleEdge (refState 5) a b := by
  intro h
  rcases (possibleEdge_refState_char 5 a b).mp h with ⟨-, -, hv⟩ | ⟨-, -, hv⟩
  · have h10 := (validOffset_34 5).mp hv
    push_cast at h10
    linarith [tan5_lt_tenth]
  · have h20 := (validOffset_35 5).mp hv
    push_cast at h20
    linarith [tan5_lt_tenth]

/-- At a 10-degree correlation angle the fixture's only possible edge is
(3,4). -/
theorem possibleEdge_refState10 (a b : Node) :
    PossibleEdge (refState 10) a b ↔ a = refNode3 ∧ b = refNode4 := by
  rw [possibleEdge_refState_char]
  constructor
  · rintro (⟨h3, h4, -⟩ | ⟨-, -, hv⟩)
    · exact ⟨h3, h4⟩
    · have h20 := (validOffset_35 10).mp hv
      push_cast at h20
      linarith [tan10_lt_fifth]
  · rintro ⟨rfl, rfl⟩
    refine Or.inl ⟨rfl, rfl, (validOffset_34 10).mpr ?_⟩
    push_cast
    linarith [tenth_lt_tan10]

/-- At a 15-degree correlation angle the fixture's possible edges are (3,4)
and (3,5). -/
theorem possibleEdge_refState15 (a b : Node) :
    PossibleEdge (refState 15) a b ↔
      a = refNode3 ∧ (b = refNode4 ∨ b = refNode5) := by
  rw [possibleEdge_refState_char]
  constructor
  · rintro (⟨h3, h4, -⟩ | ⟨h3, h5, -⟩)
    · exact ⟨h3, Or.inl h4⟩
    · exact ⟨h3, Or.inr h5⟩
  · rintro ⟨rfl, rfl | rfl⟩
    · refine Or.inl ⟨rfl, rfl, (validOffset_34 15).mpr ?_⟩
      push_cast
      linarith [tenth_lt_tan15]
    · refine Or.inr ⟨rfl, rfl, (validOffset_35 15).mpr ?_⟩
      push_cast
      linarith [fifth_lt_tan15]

/-- At a 20-degree correlation angle the fixture's possible edges are (3,4)
and (3,5). -/
theorem possibleEdge_refState20 (a b : Node) :
    PossibleEdge (refState 20) a b ↔
      a = refNode3 ∧ (b = refNode4 ∨ b = refNode5) := by
  rw [possibleEdge_refState_char]
  constructor
  · rintro (⟨h3, h4, -⟩ | ⟨h3, h5, -⟩)
    · exact ⟨h3, Or.inl h4⟩
    · exact ⟨h3, Or.inr h5⟩
  · rintro ⟨rfl, rfl | rfl⟩
    · refine Or.inl ⟨rfl, rfl, (validOffset_34 20).mpr ?_⟩
      push_cast
      linarith [tenth_lt_tan20]
    · refine Or.inr ⟨rfl, rfl, (validOffset_35 20).mpr ?_⟩
      push_cast
      linarith [fifth_lt_tan20]

/-- C1: a possible edge between two nodes on different holes exists iff their
offset passes the graph's correlation-angle threshold, with the additional
parent-correlation gate for nodes of a child graph; on the reference fixture
a correlation angle of 5° yields no possible edge, 10° yields exactly (3,4),
and 20° yields exactly (3,4) and (3,5). -/
theorem possible_edge_correlation_angle_gate :
    (∀ s a b, PossibleEdge s a b ↔
      ((a ∈ s.node ∧ b ∈ s.node ∧ a.graphId = b.graphId ∧ a.holeId ≠ b.holeId ∧
          ValidOffset s.hole a b s.metadata.correlation_angle) ∧
        a.id < b.id ∧
        ∀ p ∈ parentsOf s.graph_relationship a.graphId, ParentCorrelationOk s a b p)) ∧
    (∀ a b, ¬ PossibleEdge (refState 5) a b) ∧
    (∀ a b, PossibleEdge (refState 10) a b ↔ a = refNode3 ∧ b = refNode4) ∧
    (∀ a b, PossibleEdge (refState 20) a b ↔
      a = refNode3 ∧ (b = refNode4 ∨ b = refNode5)) :=
  ⟨fun _ _ _ => Iff.rfl, possibleEdge_refState5, possibleEdge_refState10,
    possibleEdge_refState20⟩

/-- C1 witness: at 10° the fixture's possible edge (3,4) indeed exists. -/
theorem possible_edge_correlation_angle_gate_witness :
    PossibleEdge (refState 10) refNode3 refNode4 :=
  (possible_edge_correlation_angle_gate.2.2.1 refNode3 refNode4).mpr ⟨rfl, rfl⟩

/-! ### Parent-resolution invariance lemmas -/

/-- `setParent` keeps the id. -/
@[simp] theorem setParent_id (π : Node → Option Nat) (n : Node) :
    (setParent π n).id = n.id := rfl

/-- `setParent` keeps the hole. -/
@[simp] theorem setParent_holeId (π : Node → Option Nat) (n : Node) :
    (setParent π n).holeId = n.holeId := rfl

/-- `setParent` keeps the interval start. -/
@[simp] theorem setParent_from (π : Node → Option Nat) (n : Node) :
    (setParent π n).from_ = n.from_ := rfl

/-- `setParent` keeps the interval end. -/
@[simp] theorem setParent_to (π : Node → Option Nat) (n : Node) :
    (setParent π n).to_ = n.to_ := rfl

/-- `setParent` keeps the graph. -/
@[simp] theorem setParent_graphId (π : Node → Option Nat) (n : Node) :
    (setParent π n).graphId = n.graphId := rfl

/-- `setParent` writes the parent. -/
@[simp] theorem setParent_parent (π : Node → Option Nat) (n : Node) :
    (setParent π n).parent = π n := rfl

/-- Rewriting parents does not change which nodes are parent candidates. -/
theorem candidateParents_map_setParent (π : Node → Option Nat) (l : List Node)
    (p : String) (n : Node) :
    candidateParents (l.map (setParent π)) p n =
      (candidateParents l p n).map (setParent π) := by
  unfold candidateParents
  rw [List.filter_map]
  rfl

/-- Rewriting parents commutes with the nearest-candidate scan. -/
theorem foldl_nearerTo_map (n : Node) (π : Node → Option Nat) (l : List Node)
    (b : Option Node) :
    (l.map (setParent π)).foldl (nearerTo n) (b.map (setParent π)) =
      (l.foldl (nearerTo n) b).map (setParent π) := by
  induction l generalizing b with
  | nil => rfl
  | cons x xs ih =>
    rw [List.map_cons, List.foldl_cons, List.foldl_cons]
    have hstep : nearerTo n (b.map (setParent π)) (setParent π x) =
        (nearerTo n b x).map (setParent π) := by
      cases b with
      | none => rfl
      | some bb =>
        simp only [Option.map_some', nearerTo, intervalDist, zmid, setParent_from,
          setParent_to]
        split_ifs <;> rfl
    rw [hstep, ih]

/-- Rewriting parents does not change the nearest-parent id. -/
theorem nearestParent_map_setParent (π : Node → Option Nat) (l : List Node)
    (p : String) (n : Node) :
    nearestParent (l.map (setParent π)) p n = nearestParent l p n := by
  unfold nearestParent
  rw [candidateParents_map_setParent]
  have h := foldl_nearerTo_map n π (candidateParents l p n) none
  simp only [Option.map_none'] at h
  rw [h, Option.map_map]
  rfl

/-- Rewriting parents in the node table does not change how any node's parent
resolves. -/
theorem resolveParent_map_setParent (rels : List (String × String))
    (π : Node → Option Nat) (l : List Node) (n : Node) :
    resolveParent rels (l.map (setParent π)) n = resolveParent rels l n := by
  unfold resolveParent
  cases parentsOf rels n.graphId with
  | nil => rfl
  | cons p ps => exact nearestParent_map_setParent π l p n

/-- A node's resolved parent does not depend on its own `parent` field. -/
theorem resolveParent_setParent_arg (rels : List (String × String))
    (l : List Node) (π : Node → Option Nat) (n : Node) :
    resolveParent rels l (setParent π n) = resolveParent rels l n := rfl

/-- The invariant maintained by the modelled triggers: every node's `parent`
column holds exactly the nearest-interval reference resolved against the
current table. -/
def ParentInvariant (s : DBState) : Prop :=
  ∀ n ∈ s.node, n.parent = resolveParent s.graph_relationship s.node n

/-- Recomputing parents establishes the invariant. -/
theorem recomputeParents_invariant (s : DBState) :
    ParentInvariant (recomputeParents s) := by
  intro n hn
  obtain ⟨m, hm, rfl⟩ := List.mem_map.mp hn
  rw [setParent_parent, recomputeParents]
  show _ = resolveParent s.graph_relationship
    (s.node.map (setParent (resolveParent s.graph_relationship s.node))) _
  rw [resolveParent_setParent_arg, resolveParent_map_setParent]

/-! ### `test_nodes` replay -/

/-- The fixture after creating the child graph `sub` (referencing `g`) and
inserting the child nodes (ids 6 and 7). -/
def subState : DBState :=
  add_to_graph_node (new_graph (refState 10) "sub" ["g"]) "sub" childNodes

/-- `subState` after adding a fourth reference node (48–49 on hole 1, id 8)
to the parent graph. -/
def subState2 : DBState := add_to_graph_node subState "g" [⟨48, 49, "1"⟩]

/-- `subState2` after deleting the child node on hole 0. -/
def subState3 : DBState :=
  delete_nodes subState2 (fun n => n.graphId = "sub" ∧ n.holeId = "0")

/-- `subState3` after deleting the 48–49 parent node again. -/
def subState4 : DBState :=
  delete_nodes subState3 (fun n => n.graphId = "g" ∧ n.from_ = 48)

/-- Child nodes 6 and 7 resolve to the nearest-interval parents 3 and 5. -/
theorem subState_parents :
    subState.node.map (fun n => (n.id, n.parent)) =
      [(3, none), (4, none), (5, none), (6, some 3), (7, some 5)] := by
  norm_num +decide [subState, refState, initState, add_to_graph_node, new_graph,
    cascadeDeleteGraph, recomputeParents, resolveParent, parentsOf, nearestParent,
    candidateParents, nearerTo, intervalDist, zmid, setParent, mkNodes,
    fixtureHoles, fixtureCells, referenceNodes, childNodes,
    List.filter_cons, List.foldl_cons, List.foldl_nil]

/-- After the 48–49 node joins the parent graph, child node 7 re-resolves to
it (id 8). -/
theorem subState2_parents :
    subState2.node.map (fun n => (n.id, n.parent)) =
      [(3, none), (4, none), (5, none), (6, some 3), (7, some 8), (8, none)] := by
  norm_num +decide [subState2, subState, refState, initState, add_to_graph_node,
    new_graph, cascadeDeleteGraph, recomputeParents, resolveParent, parentsOf,
    nearestParent, candidateParents, nearerTo, intervalDist, zmid, setParent,
    mkNodes, fixtureHoles, fixtureCells, referenceNodes, childNodes,
    List.filter_cons, List.foldl_cons, List.foldl_nil]

/-- Deleting a child node leaves the other child's parent untouched. -/
theorem subState3_parents :
    subState3.node.map (fun n => (n.id, n.parent)) =
      [(3, none), (4, none), (5, none), (7, some 8), (8, none)] := by
  norm_num +decide [subState3, subState2, subState, refState, initState,
    add_to_graph_node, new_graph, cascadeDeleteGraph, recomputeParents,
    resolveParent, parentsOf, nearestParent, candidateParents, nearerTo,
    intervalDist, zmid, setParent, mkNodes, delete_nodes,
    fixtureHoles, fixtureCells, referenceNodes, childNodes,
    List.filter_cons, List.foldl_cons, List.foldl_nil]

/-- Deleting the 48–49 parent node re-resolves child node 7 back to node 5. -/
theorem subState4_parents :
    subState4.node.map (fun n => (n.id, n.parent)) =
      [(3, none), (4, none), (5, none), (7, some 5)] := by
  norm_num +decide [subState4, subState3, subState2, subState, refState, initState,
    add_to_graph_node, new_graph, cascadeDeleteGraph, recomputeParents,
    resolveParent, parentsOf, nearestParent, candidateParents, nearerTo,
    intervalDist, zmid, setParent, mkNodes, delete_nodes,
    fixtureHoles, fixtureCells, referenceNodes, childNodes,
    List.filter_cons, List.foldl_cons, List.foldl_nil]

/-- C2: every node insertion and deletion re-resolves the `parent` column of
every node to the nearest-depth-interval node of the referenced parent graph
on the same hole (`none` for root graphs); replaying `test_nodes`, the child
nodes resolve to parents 3 and 5, re-resolve to a newly inserted nearer
parent (id 8), survive a child deletion unchanged, and fall back to parent 5
when the 48–49 parent node is deleted. -/
theorem node_parent_nearest_interval :
    (∀ s g features, ParentInvariant (add_to_graph_node s g features)) ∧
    (∀ s p, ParentInvariant (delete_nodes s p)) ∧
    (∀ s g references, ParentInvariant (new_graph s g references)) ∧
    (∀ s g, ParentInvariant (delete_graph s g)) ∧
    subState.node.map (fun n => (n.id, n.parent)) =
      [(3, none), (4, none), (5, none), (6, some 3), (7, some 5)] ∧
    subState2.node.map (fun n => (n.id, n.parent)) =
      [(3, none), (4, none), (5, none), (6, some 3), (7, some 8), (8, none)] ∧
    subState3.node.map (fun n => (n.id, n.parent)) =
      [(3, none), (4, none), (5, none), (7, some 8), (8, none)] ∧
    subState4.node.map (fun n => (n.id, n.parent)) =
      [(3, none), (4, none), (5, none), (7, some 5)] :=
  ⟨fun _ _ _ => recomputeParents_invariant _, fun _ _ => recomputeParents_invariant _,
    fun _ _ _ => recomputeParents_invariant _, fun _ _ => recomputeParents_invariant _,
    subState_parents, subState2_parents, subState3_parents, subState4_parents⟩

/-! ### Frame effects of `delete_graph` -/

/-- A node's durable columns: everything except the trigger-maintained
`parent` reference. -/
def stripParent (n : Node) : Nat × String × ℚ × ℚ := (n.id, n.holeId, n.from_, n.to_)

/-- Filtering on a key equal to `c` is unaffected by first discarding rows
whose key is `p ≠ c`. -/
theorem filter_ne_then_eq {α : Type} (k : α → String) (l : List α) (p c : String)
    (h : c ≠ p) :
    (l.filter (fun x => k x ≠ p)).filter (fun x => k x = c) =
      l.filter (fun x => k x = c) := by
  rw [List.filter_filter]
  apply List.filter_congr
  intro a _
  by_cases hc : k a = c
  · have hp : k a ≠ p := by rw [hc]; exact h
    simp [hc, hp, h]
  · simp [hc]

/-- Rewriting parents changes neither which nodes belong to a graph nor their
durable columns. -/
theorem filter_map_setParent_strip (π : Node → Option Nat) (l : List Node)
    (c : String) :
    ((l.map (setParent π)).filter (fun n => n.graphId = c)).map stripParent =
      (l.filter (fun n => n.graphId = c)).map stripParent := by
  rw [List.filter_map, List.map_map]
  rfl

/-- The `test_graph_with_parent_creation` replay: graph `g` and its child
`sub`. -/
def parentChildState : DBState :=
  new_graph (new_graph (initState 1 1) "g" []) "sub" ["g"]

/-- `parentChildState` after `delete_graph("g")`. -/
def parentDeletedState : DBState := delete_graph parentChildState "g"

/-- C3: deleting a parent graph removes the parent's graph row and every
`graph_relationship` row touching it, while the child graph's row, nodes
(durable columns), edges and end nodes are all left in place; replaying
`test_graph_with_parent_creation`, deleting `g` leaves exactly the child row
`(sub, NULL)` and an empty relationship table. -/
theorem delete_graph_keeps_children (s : DBState) (p c : String) (h : c ≠ p) :
    (∀ r ∈ s.graph, r.1 = c → r ∈ (delete_graph s p).graph) ∧
    (∀ r ∈ (delete_graph s p).graph, r.1 ≠ p) ∧
    (∀ r ∈ (delete_graph s p).graph_relationship, r.1 ≠ p ∧ r.2 ≠ p) ∧
    ((delete_graph s p).node.filter (fun n => n.graphId = c)).map stripParent =
      (s.node.filter (fun n => n.graphId = c)).map stripParent ∧
    (delete_graph s p).edge.filter (fun e => e.2.2 = c) =
      s.edge.filter (fun e => e.2.2 = c) ∧
    (delete_graph s p).end_node.filter (fun e => e.2.2 = c) =
      s.end_node.filter (fun e => e.2.2 = c) ∧
    parentChildState.graph = [("g", none), ("sub", none)] ∧
    parentChildState.graph_relationship = [("g", "sub")] ∧
    parentDeletedState.graph = [("sub", none)] ∧
    parentDeletedState.graph_relationship = [] := by
  refine ⟨?_, ?_, ?_, ?_, ?_, ?_, by decide, by decide, by decide, by decide⟩
  · intro r hr hrc
    refine List.mem_filter.mpr ⟨hr, ?_⟩
    simp only [decide_eq_true_eq]
    rw [hrc]
    exact h
  · intro r hr
    have := (List.mem_filter.mp hr).2
    simpa using this
  · intro r hr
    have := (List.mem_filter.mp hr).2
    simpa using this
  · refine Eq.trans (filter_map_setParent_strip _ _ c) ?_
    congr 1
    exact filter_ne_then_eq (fun n => n.graphId) s.node p c h
  · exact filter_ne_then_eq (fun e => e.2.2) s.edge p c h
  · exact filter_ne_then_eq (fun e => e.2.2) s.end_node p c h

/-- C3 witness: the frame theorem applied to the replay fixture. -/
theorem delete_graph_keeps_children_witness :
    ("sub", (none : Option String)) ∈ (delete_graph parentChildState "g").graph :=
  (delete_graph_keeps_children parentChildState "g" "sub" (by decide)).1
    ("sub", none) (by decide) rfl

/-! ### End-node insertion semantics -/

/-- An end-node row is its own conflict key, so the key check is membership. -/
theorem endNode_key_any_iff (acc : List (Nat × String × String))
    (r : Nat × String × String) :
    (acc.any (fun e => e.1 = r.1 ∧ e.2.1 = r.2.1 ∧ e.2.2 = r.2.2)) = true ↔
      r ∈ acc := by
  rw [List.any_eq_true]
  constructor
  · rintro ⟨e, he, hk⟩
    simp only [decide_eq_true_eq] at hk
    obtain ⟨h1, h2, h3⟩ := hk
    rcases e with ⟨e1, e2, e3⟩
    rcases r with ⟨r1, r2, r3⟩
    simp only at h1 h2 h3
    rw [h1, h2, h3] at he
    exact he
  · intro hr
    exact ⟨r, hr, by simp⟩

/-- Membership after a single conflict-guarded insert. -/
theorem mem_insertEndNode (acc : List (Nat × String × String)) (r x) :
    x ∈ insertEndNode acc r ↔ x ∈ acc ∨ x = r := by
  unfold insertEndNode
  split_ifs with hk
  · have hr : r ∈ acc := (endNode_key_any_iff acc r).mp hk
    constructor
    · exact Or.inl
    · rintro (hx | rfl)
      · exact hx
      · exact hr
  · simp [List.mem_append]

/-- Membership after a conflict-guarded batch insert: exactly the old rows
plus the batch. -/
theorem mem_insertEndNodes (rows acc : List (Nat × String × String)) (x) :
    x ∈ insertEndNodes rows acc ↔ x ∈ acc ∨ x ∈ rows := by
  induction rows generalizing acc with
  | nil => simp [insertEndNodes]
  | cons r rs ih =>
    show x ∈ insertEndNodes rs (insertEndNode acc r) ↔ _
    rw [ih]
    rw [mem_insertEndNode]
    simp only [List.mem_cons]
    tauto

/-- A batch whose rows are all already present inserts nothing. -/
theorem insertEndNodes_all_mem (rows : List (Nat × String × String)) :
    ∀ acc, (∀ r ∈ rows, r ∈ acc) → insertEndNodes rows acc = acc := by
  induction rows with
  | nil => intro acc _; rfl
  | cons r rs ih =>
    intro acc h
    show insertEndNodes rs (insertEndNode acc r) = acc
    have hr : insertEndNode acc r = acc := by
      unfold insertEndNode
      rw [if_pos ((endNode_key_any_iff acc r).mpr (h r (by simp)))]
    rw [hr]
    exact ih acc (fun e he => h e (by simp [he]))

/-! ### `test_end_node` replay -/

/-- The fixture at 15° with both possible edges accepted into `albion.edge`. -/
def acceptedState : DBState :=
  { refState 15 with edge := [(3, 4, "g"), (3, 5, "g")] }

/-- The five expected end nodes: nodes 3, 4, 5 toward hole 2 and nodes 4, 5
toward hole 3. -/
def expectedEndNodes : List (Nat × String × String) :=
  [(3, "2", "g"), (4, "2", "g"), (4, "3", "g"), (5, "2", "g"), (5, "3", "g")]

/-- `accept_possible_edge` on the 15° fixture can only produce the edge
batch `[(3,4,"g"), (3,5,"g")]` (up to order), i.e. `acceptedState`. -/
theorem edgesAccepted_acceptedState :
    EdgesAccepted (refState 15) "g" acceptedState := by
  refine ⟨[(3, 4, "g"), (3, 5, "g")], by decide, ?_, by decide⟩
  intro e
  constructor
  · intro he
    simp only [List.mem_cons, List.not_mem_nil, or_false] at he
    rcases he with rfl | rfl
    · exact ⟨refNode3, refNode4,
        (possibleEdge_refState15 _ _).mpr ⟨rfl, Or.inl rfl⟩, rfl, rfl⟩
    · exact ⟨refNode3, refNode5,
        (possibleEdge_refState15 _ _).mpr ⟨rfl, Or.inr rfl⟩, rfl, rfl⟩
  · rintro ⟨a, b, hpe, hg, rfl⟩
    rcases (possibleEdge_refState15 a b).mp hpe with ⟨rfl, rfl | rfl⟩ <;> decide

/-- The membership of an edge batch accepted at 15° is exactly the two
fixture edges. -/
theorem accepted_batch_mem {l : List (Nat × Nat × String)}
    (hmem : ∀ e, e ∈ l ↔ ∃ a b, PossibleEdge (refState 15) a b ∧
      a.graphId = "g" ∧ e = (a.id, b.id, "g")) :
    ∀ e, e ∈ l ↔ e = (3, 4, "g") ∨ e = (3, 5, "g") := by
  intro e
  rw [hmem e]
  constructor
  · rintro ⟨a, b, hpe, hg, rfl⟩
    rcases (possibleEdge_refState15 a b).mp hpe with ⟨rfl, rfl | rfl⟩
    · exact Or.inl rfl
    · exact Or.inr rfl
  · rintro (rfl | rfl)
    · exact ⟨refNode3, refNode4,
        (possibleEdge_refState15 _ _).mpr ⟨rfl, Or.inl rfl⟩, rfl, rfl⟩
    · exact ⟨refNode3, refNode5,
        (possibleEdge_refState15 _ _).mpr ⟨rfl, Or.inr rfl⟩, rfl, rfl⟩

/-- Whatever edge batch `accept_possible_edge` produced at 15°, the end nodes
created afterwards are exactly the expected five. -/
theorem end_nodes_of_accepted (s' : DBState)
    (hacc : EdgesAccepted (refState 15) "g" s') :
    ∀ x, x ∈ (create_terminations s' "g").end_node ↔ x ∈ expectedEndNodes := by
  obtain ⟨l, hnd, hmem, rfl⟩ := hacc
  have hmem' := accepted_batch_mem hmem
  set S : DBState := { refState 15 with edge := (refState 15).edge ++ l } with hS
  have hedge : ∀ nid h, hasEdgeToward S "g" nid h =
      hasEdgeToward acceptedState "g" nid h := by
    intro nid h
    unfold hasEdgeToward
    have hSe : S.edge = l := rfl
    have hae : acceptedState.edge = [(3, 4, "g"), (3, 5, "g")] := rfl
    rw [hSe, hae]
    rw [← Bool.coe_iff_coe]
    simp only [List.any_eq_true]
    constructor
    · rintro ⟨e, he, hp⟩
      refine ⟨e, ?_, hp⟩
      rcases (hmem' e).mp he with rfl | rfl <;> simp
    · rintro ⟨e, he, hp⟩
      refine ⟨e, ?_, hp⟩
      simp only [List.mem_cons, List.not_mem_nil, or_false] at he
      exact (hmem' e).mpr he
  have hdyn : dynamic_end_node S "g" = dynamic_end_node acceptedState "g" := by
    unfold dynamic_end_node
    have hn : S.node = acceptedState.node := rfl
    have hc : S.cell = acceptedState.cell := rfl
    rw [hn, hc]
    apply List.flatMap_congr
    intro n _
    apply List.filterMap_congr
    intro h _
    rw [hedge n.id h]
  intro x
  show x ∈ insertEndNodes (dynamic_end_node S "g") S.end_node ↔ _
  rw [mem_insertEndNodes, hdyn]
  have hend : S.end_node = [] := rfl
  rw [hend]
  simp only [List.not_mem_nil, false_or]
  rw [show dynamic_end_node acceptedState "g" = expectedEndNodes from by decide]

/-- C4: `create_terminations` inserts exactly the `dynamic_end_node` rows not
already present (one per unmatched node/neighboring-hole pair); on the 15°
fixture with the possible edges accepted, the end nodes are exactly nodes 3,
4, 5 toward hole 2 and nodes 4, 5 toward hole 3. -/
theorem create_terminations_end_nodes :
    (∀ s g x, x ∈ (create_terminations s g).end_node ↔
      x ∈ s.end_node ∨ x ∈ dynamic_end_node s g) ∧
    (∀ s g x, x ∈ dynamic_end_node s g ↔
      ∃ n ∈ s.node, n.graphId = g ∧ ∃ h ∈ neighbors s.cell n.holeId,
        hasEdgeToward s g n.id h = false ∧ x = (n.id, h, g)) ∧
    EdgesAccepted (refState 15) "g" acceptedState ∧
    (∀ s', EdgesAccepted (refState 15) "g" s' →
      ∀ x, x ∈ (create_terminations s' "g").end_node ↔ x ∈ expectedEndNodes) ∧
    (create_terminations acceptedState "g").end_node = expectedEndNodes := by
  refine ⟨fun s g x => mem_insertEndNodes _ _ x, ?_, edgesAccepted_acceptedState,
    end_nodes_of_accepted, by decide⟩
  intro s g x
  unfold dynamic_end_node
  rw [List.mem_flatMap]
  constructor
  · rintro ⟨n, hn, hx⟩
    obtain ⟨hn', hg⟩ := List.mem_filter.mp hn
    rw [List.mem_filterMap] at hx
    obtain ⟨h, hh, hsome⟩ := hx
    refine ⟨n, hn', by simpa using hg, h, hh, ?_⟩
    by_cases he : hasEdgeToward s g n.id h
    · rw [if_pos he] at hsome
      exact absurd hsome (by simp)
    · rw [if_neg he] at hsome
      exact ⟨by simpa using he, by simpa using hsome.symm⟩
  · rintro ⟨n, hn, hg, h, hh, he, rfl⟩
    refine ⟨n, List.mem_filter.mpr ⟨hn, by simpa using hg⟩, ?_⟩
    rw [List.mem_filterMap]
    exact ⟨h, hh, by rw [if_neg (by simp [he])]⟩

/-- C4 witness: the end-node set of any accepted 15° state, instantiated at
the canonical accepted state and the first expected row. -/
theorem create_terminations_end_nodes_witness :
    (3, "2", "g") ∈ (create_terminations acceptedState "g").end_node :=
  (create_terminations_end_nodes.2.2.2.1 acceptedState
    create_terminations_end_nodes.2.2.1 (3, "2", "g")).mpr (by decide)

/-- C9: `create_terminations` is idempotent — because of the
`ON CONFLICT (node_id, hole_id, graph_id) DO NOTHING` clause, a second run on
the unchanged database is a no-op on the whole state. -/
theorem create_terminations_idempotent (s : DBState) (g : String) :
    create_terminations (create_terminations s g) g = create_terminations s g := by
  have h : insertEndNodes (dynamic_end_node s g)
      (create_terminations s g).end_node = (create_terminations s g).end_node :=
    insertEndNodes_all_mem _ _ (fun r hr =>
      (mem_insertEndNodes _ _ r).mpr (Or.inr hr))
  show ({ create_terminations s g with
      end_node := insertEndNodes (dynamic_end_node (create_terminations s g) g)
        (create_terminations s g).end_node }) = create_terminations s g
  rw [show dynamic_end_node (create_terminations s g) g = dynamic_end_node s g
    from rfl, h]

/-! ### Idempotence of `new_graph` -/

/-- Filtering twice with the same predicate filters once. -/
theorem filter_idem {α : Type} (p : α → Bool) (l : List α) :
    (l.filter p).filter p = l.filter p := by
  rw [List.filter_filter]
  apply List.filter_congr
  intro a _
  exact Bool.and_self _

/-- Keeping only key `g` after discarding key `g` leaves nothing. -/
theorem filter_eq_after_ne {α : Type} (k : α → String) (g : String) (l : List α) :
    (l.filter (fun x => k x ≠ g)).filter (fun x => k x = g) = [] := by
  rw [List.filter_filter]
  have h : (l.filter fun a => decide (k a = g) && decide (k a ≠ g)) =
      l.filter (fun _ => false) := by
    apply List.filter_congr
    intro a _
    by_cases hg : k a = g <;> simp [hg]
  rw [h, List.filter_false]

/-- Recomputing parents twice over the same relationship table equals
recomputing once. -/
theorem recompute_node_idem (R : List (String × String)) (l : List Node) :
    (l.map (setParent (resolveParent R l))).map
        (setParent (resolveParent R (l.map (setParent (resolveParent R l))))) =
      l.map (setParent (resolveParent R l)) := by
  rw [List.map_map]
  apply List.map_congr_left
  intro n _
  have h1 : resolveParent R (l.map (setParent (resolveParent R l)))
      (setParent (resolveParent R l) n) = resolveParent R l n := by
    rw [resolveParent_setParent_arg, resolveParent_map_setParent]
  show setParent _ (setParent _ n) = setParent _ n
  simp only [setParent] at h1 ⊢
  rw [h1]

/-- Rewriting parents commutes with keeping the nodes outside graph `g`. -/
theorem filter_ne_map_setParent (π : Node → Option Nat) (g : String) (l : List Node) :
    (l.map (setParent π)).filter (fun n => n.graphId ≠ g) =
      (l.filter (fun n => n.graphId ≠ g)).map (setParent π) := by
  rw [List.filter_map]
  rfl

/-- Rewriting parents commutes with keeping the nodes of graph `g`. -/
theorem filter_eq_map_setParent (π : Node → Option Nat) (g : String) (l : List Node) :
    (l.map (setParent π)).filter (fun n => n.graphId = g) =
      (l.filter (fun n => n.graphId = g)).map (setParent π) := by
  rw [List.filter_map]
  rfl

/-- C8: `new_graph(g)` first cascade-deletes any existing graph `g` — its
row, nodes, edges, end nodes and relationships vanish without warning — and
then inserts a fresh `(g, NULL)` row, so the operation is idempotent on the
whole database state and the graph table ends up with exactly one row for
`g`, namely `(g, NULL)`. -/
theorem new_graph_overwrites_idempotent :
    (∀ s g refs, new_graph (new_graph s g refs) g refs = new_graph s g refs) ∧
    (∀ s g refs, (new_graph s g refs).graph.filter (fun r => r.1 = g) =
      [(g, none)]) ∧
    (∀ s g refs, (new_graph s g refs).node.filter (fun n => n.graphId = g) = []) ∧
    (new_graph (initState 1 1) "g" []).graph = [("g", none)] ∧
    (new_graph (new_graph (initState 1 1) "g" []) "g" []).graph = [("g", none)] := by
  have hsingle : ∀ g : String,
      List.filter (fun r => r.1 ≠ g) [((g : String), (none : Option String))] = [] := by
    intro g; simp
  refine ⟨?_, ?_, ?_, by decide, by decide⟩
  · intro s g refs
    have hQmap : List.filter (fun r => r.1 ≠ g ∧ r.2 ≠ g)
        (List.map (fun p => (p, g)) refs) = [] := by
      rw [List.filter_map]
      have h : ((fun (r : String × String) => decide (r.1 ≠ g ∧ r.2 ≠ g)) ∘
          (fun p => (p, g))) = fun _ => false := by
        funext p; simp
      rw [h, List.filter_false, List.map_nil]
    have hR : List.filter (fun r => r.1 ≠ g ∧ r.2 ≠ g)
        (List.filter (fun r => r.1 ≠ g ∧ r.2 ≠ g) s.graph_relationship ++
          List.map (fun p => (p, g)) refs) =
        List.filter (fun r => r.1 ≠ g ∧ r.2 ≠ g) s.graph_relationship := by
      rw [List.filter_append, filter_idem, hQmap, List.append_nil]
    unfold new_graph cascadeDeleteGraph recomputeParents
    dsimp only
    rw [DBState.mk.injEq]
    refine ⟨?_, ?_, ?_, filter_idem _ _, filter_idem _ _, rfl, rfl, rfl, rfl⟩
    · rw [List.filter_append, filter_idem, hsingle, List.append_nil]
    · rw [hR]
    · rw [hR, filter_ne_map_setParent, filter_idem]
      exact recompute_node_idem _ _
  · intro s g refs
    show List.filter (fun r => r.1 = g)
        (List.filter (fun r => r.1 ≠ g) s.graph ++ [(g, none)]) = [(g, none)]
    rw [List.filter_append, filter_eq_after_ne (fun r => r.1) g s.graph]
    simp
  · intro s g refs
    show List.filter (fun n => n.graphId = g)
        ((List.filter (fun n => n.graphId ≠ g) s.node).map (setParent _)) = []
    rw [filter_eq_map_setParent, filter_eq_after_ne (fun n => n.graphId) g s.node]
    rfl

/-! ### Python string semantics over `List Char`

The orchestration layer manipulates Python strings (`str.split`,
`str.replace`, `str.find`, `os.path` helpers).  They are embedded over
`List Char` with structurally recursive definitions so that concrete runs
evaluate inside the kernel. -/

/-- If `pat` is a prefix of `s`, return the remainder of `s`. -/
def dropPre : List Char → List Char → Option (List Char)
  | [], s => some s
  | _ :: _, [] => none
  | p :: ps, c :: cs => if p = c then dropPre ps cs else none

/-- Fuel-driven worker for Python's `str.split(sep)` (non-empty `sep`):
scan left to right, cutting at each non-overlapping occurrence of `sep`.
`fuel` bounds the number of scanning steps; `pySplit` supplies enough. -/
def pySplitAux (sep : List Char) : Nat → List Char → List Char → List (List Char)
  | _, [], acc => [acc.reverse]
  | 0, _ :: _, acc => [acc.reverse]
  | fuel + 1, c :: cs, acc =>
    match dropPre sep (c :: cs) with
    | some rest => acc.reverse :: pySplitAux sep fuel rest []
    | none => pySplitAux sep fuel cs (c :: acc)

/-- Python's `s.split(sep)` for a non-empty separator. -/
def pySplit (s sep : List Char) : List (List Char) :=
  pySplitAux sep s.length s []

/-- Python's `s.replace(old, new)` (split on `old`, join with `new`). -/
def pyReplace (s old new : List Char) : List Char :=
  List.intercalate new (pySplit s old)

/-- Python's `s.find(sub) != -1` for non-empty `sub`. -/
def pyContainsSub : List Char → List Char → Bool
  | [], pat => (dropPre pat []).isSome
  | c :: cs, pat => (dropPre pat (c :: cs)).isSome || pyContainsSub cs pat

/-! ### `get_statements` and `execute_script` -/

/-- The statement separator of `get_statements`: `"\n;\n"`. -/
def stmtSep : List Char := ['\n', ';', '\n']

/-- `get_statements` (project.py:114–116): split the file content on
`"\n;\n"` and drop the final element. -/
def get_statements (s : List Char) : List (List Char) :=
  (pySplit s stmtSep).dropLast

/-- `Project.execute_script` (project.py:892–900): execute each statement of
`get_statements` with `$SRID` substituted; the returned list is exactly what
reaches `cur.execute`. -/
def executed_statements (script : List Char) (srid : List Char) : List (List Char) :=
  (get_statements script).map (fun st => pyReplace st ("$SRID".data) srid)

/-- C10: `get_statements` returns the `"\n;\n"`-split of the file with the
final element removed, so any trailing text after the last separator — in
particular an unterminated final statement — is dropped and never reaches
`cur.execute` in `execute_script`. -/
theorem get_statements_drops_tail :
    (∀ s, get_statements s = (pySplit s stmtSep).dropLast) ∧
    get_statements ("a\n;\nb\n;\n".data) = ["a".data, "b".data] ∧
    get_statements ("a\n;\nfinal statement".data) = ["a".data] ∧
    get_statements ("a\n;\nb".data) = ["a".data] ∧
    get_statements ("no separator at all".data) = [] ∧
    executed_statements ("SELECT $SRID\n;\ntrailing".data) ("32632".data) =
      ["SELECT 32632".data] ∧
    ("trailing".data ∉
      executed_statements ("SELECT $SRID\n;\ntrailing".data) ("32632".data)) ∧
    (∀ script srid, (executed_statements script srid).length =
      (pySplit script stmtSep).length - 1) :=
  ⟨fun _ => rfl, by decide, by decide, by decide, by decide, by decide, by decide,
    fun script srid => by
      simp [executed_statements, get_statements, List.length_dropLast]⟩

/-! ### Connection handling of the `Project` methods

Each user-triggered method is embedded as its sequence of connection-level
actions.  Methods written `with self.connect() as con:` end with a commit
because the psycopg2 connection context manager commits the transaction on
successful exit — but it does **not** close the connection; only `vacuum`
closes its connection, in a `finally` block, and `vacuum` switches the
connection to autocommit (`set_isolation_level(0)`) before running. -/

inductive DBAction where
  | openConn : DBAction
  | setAutocommit : DBAction
  | exec : String → DBAction
  | commit : DBAction
  | closeConn : DBAction
deriving DecidableEq, Repr

/-- `Project.vacuum` (project.py:158–167): explicit connection, isolation
level 0, one statement, explicit commit, `finally: conn.close()`. -/
def vacuum_trace : List DBAction :=
  [.openConn, .setAutocommit, .exec "vacuum analyze", .commit, .closeConn]

/-- `Project.delete_graph` (project.py:932–941): a `with` block around one
DELETE; the context manager commits on exit and leaves the connection open. -/
def delete_graph_trace : List DBAction :=
  [.openConn, .exec "DELETE FROM albion.graph CASCADE WHERE id", .commit]

/-- `Project.accept_possible_edge` (project.py:1769–1779): a `with` block
around one INSERT; the context manager commits on exit and leaves the
connection open. -/
def accept_possible_edge_trace : List DBAction :=
  [.openConn, .exec "INSERT INTO albion.edge SELECT FROM albion.possible_edge",
   .commit]

/-- The property claimed of every user-triggered operation: open first, all
statements in one implicit transaction (no autocommit switch, exactly one
commit), and a close as the final action before returning. -/
def OpensCommitsCloses (t : List DBAction) : Prop :=
  t.head? = some DBAction.openConn ∧
  DBAction.setAutocommit ∉ t ∧
  t.count DBAction.commit = 1 ∧
  t.getLast? = some DBAction.closeConn

/-- C5 counterexample: `delete_graph` never closes its connection, and
`vacuum` switches to autocommit rather than using an implicit transaction,
so the claim fails on both cited operations. -/
theorem project_connection_discipline_counterexample :
    ¬ OpensCommitsCloses delete_graph_trace ∧
      ¬ OpensCommitsCloses vacuum_trace := by
  constructor
  · intro h
    exact absurd h.2.2.2 (by decide)
  · intro h
    exact absurd h.2.1 (by decide)

/-- C5 (amended): every modelled user-triggered operation opens its own
scoped connection first and commits exactly once before returning
(explicitly or at context-manager exit); `delete_graph` and
`accept_possible_edge` run inside a single implicit transaction but leave
the connection open, while `vacuum` switches the connection to autocommit
and is the only operation that closes its connection. -/
theorem project_connection_discipline :
    (vacuum_trace.head? = some DBAction.openConn ∧
      DBAction.commit ∈ vacuum_trace ∧
      DBAction.setAutocommit ∈ vacuum_trace ∧
      vacuum_trace.getLast? = some DBAction.closeConn) ∧
    (delete_graph_trace.head? = some DBAction.openConn ∧
      DBAction.setAutocommit ∉ delete_graph_trace ∧
      delete_graph_trace.count DBAction.commit = 1 ∧
      DBAction.closeConn ∉ delete_graph_trace) ∧
    (accept_possible_edge_trace.head? = some DBAction.openConn ∧
      DBAction.setAutocommit ∉ accept_possible_edge_trace ∧
      accept_possible_edge_trace.count DBAction.commit = 1 ∧
      DBAction.closeConn ∉ accept_possible_edge_trace) := by
  refine ⟨⟨rfl, ?_, ?_, rfl⟩, ⟨rfl, ?_, by decide, ?_⟩, ⟨rfl, ?_, by decide, ?_⟩⟩
    <;> decide

/-! ### Dependency probing and the `Qgis.critical` slip -/

/-- How a `famsa` executable may present itself on the host. -/
inductive FamsaStatus where
  | installed : FamsaStatus
  | missingFile : FamsaStatus
  | notExecutable : FamsaStatus
  | notAProgram : FamsaStatus
deriving DecidableEq, Repr

/-- `check_famsa_dependency` (similog.py:35–45): `subprocess.call(["famsa"])`
with `FileNotFoundError`, `PermissionError` and `OSError` all caught and
turned into `False`. -/
def check_famsa_dependency : FamsaStatus → Bool
  | .installed => true
  | .missingFile => false
  | .notExecutable => false
  | .notAProgram => false

/-- `check_similog_dependency` (similog.py:24–32): `import albion_similog`
with `ModuleNotFoundError` caught. -/
def check_similog_dependency (installed : Bool) : Bool := installed

/-- The enabling condition of the "Compute similog resistivity" menu entry
(plugin.py:188–197). -/
def similog_menu_enabled (projectLoaded haveSimilog hasResistivity
    similogInstalled : Bool) (famsa : FamsaStatus) : Bool :=
  projectLoaded && haveSimilog && hasResistivity &&
    check_similog_dependency similogInstalled && check_famsa_dependency famsa

/-- The attribute names the host `Qgis` message-level enum exposes
(capitalized members; the source itself uses `Qgis.Critical` at
project.py:1511). -/
def qgis_message_levels : List String := ["Info", "Warning", "Critical", "Success"]

/-- Python attribute lookup on the `Qgis` class: `none` means
`AttributeError`. -/
def qgis_getattr (name : String) : Option String :=
  if name ∈ qgis_message_levels then some name else none

/-- `Project.export_project` (project.py:1504–1524) with `pg_dump` missing:
pushes a message at `Qgis.Critical` and returns — graceful. -/
def export_project_missing_pg_dump : Except String String :=
  match qgis_getattr "Critical" with
  | some lvl => Except.ok lvl
  | none => Except.error "AttributeError: type object Qgis has no attribute Critical"

/-- `Project.import_project` (project.py:1526–1546) with `psql` missing: the
message push evaluates `Qgis.critical` (project.py:1535), a lowercase
attribute the `Qgis` enum does not have, so the operation raises
`AttributeError` instead of degrading gracefully. -/
def import_project_missing_psql : Except String String :=
  match qgis_getattr "critical" with
  | some lvl => Except.ok lvl
  | none => Except.error "AttributeError: type object Qgis has no attribute critical"

/-- C6: probing works and menu gating degrades gracefully for famsa and the
similog package, and the `pg_dump` runtime check degrades gracefully too —
but `import_project` with `psql` missing evaluates the nonexistent
`Qgis.critical` and raises mid-operation, contradicting the claim that no
operation fails mid-run because of a missing binary. -/
theorem missing_binary_probing_and_qgis_critical_slip :
    (∀ st, check_famsa_dependency st = true ↔ st = FamsaStatus.installed) ∧
    (∀ pl hs hr sd st, st ≠ FamsaStatus.installed →
      similog_menu_enabled pl hs hr sd st = false) ∧
    export_project_missing_pg_dump = Except.ok "Critical" ∧
    import_project_missing_psql =
      Except.error "AttributeError: type object Qgis has no attribute critical" := by
  refine ⟨?_, ?_, rfl, rfl⟩
  · intro st
    cases st <;> simp [check_famsa_dependency]
  · intro pl hs hr sd st hst
    cases st
    · exact absurd rfl hst
    all_goals simp [similog_menu_enabled, check_famsa_dependency]

/-- C6 witness: the menu gate evaluated at a concrete missing-famsa host. -/
theorem missing_binary_probing_and_qgis_critical_slip_witness :
    similog_menu_enabled true true true true FamsaStatus.missingFile = false :=
  missing_binary_probing_and_qgis_critical_slip.2.1 true true true true
    FamsaStatus.missingFile (by decide)

/-! ### Project export / import pipeline -/

/-- System-level steps taken by export/import. -/
inductive SysAction where
  | whichBinary : List Char → SysAction
  | runProcess : List (List Char) → SysAction
  | createDb : List Char → SysAction
  | dbUpdate : SysAction
  | createSections : SysAction
deriving DecidableEq, Repr

/-- `os.path.split(p)[1]`: the part after the last `/`. -/
def baseName (p : List Char) : List Char := (pySplit p "/".data).getLastD []

/-- `os.path.splitext(f)[0]`: drop the extension after the last dot. -/
def splitext_stem (f : List Char) : List Char :=
  if (pySplit f ".".data).length ≤ 1 then f
  else List.intercalate ".".data ((pySplit f ".".data).dropLast)

/-- `find_in_dir` (project.py:107–111): the first file whose name contains
`name` as a substring (`filename.find(name) != -1`). -/
def find_in_dir (files : List (List Char)) (name : List Char) :
    Option (List Char) :=
  files.find? (fun f => pyContainsSub f name)

/-- `Project.export_project` with `pg_dump` found: shell out to
`pg_dump service=albion_<name> -O -x -f <filename>`. -/
def export_project_run (pg_dump_path name filename : List Char) : List SysAction :=
  [.whichBinary "pg_dump".data,
   .runProcess [pg_dump_path, "service=albion_".data ++ name,
     "-O".data, "-x".data, "-f".data, filename]]

/-- The archive entry names written by the plugin's `__export_project`:
exactly the dump under `<project>.dump` and the QGIS project file under its
base name. -/
def export_archive_entries (name qgsFilePath : List Char) : List (List Char) :=
  [name ++ ".dump".data, baseName qgsFilePath]

/-- `Project.import_project`: create the database, then shell out to
`psql service=albion_<dbname> -f <filename>`, then refresh and create
sections. -/
def import_project_run (psql_path dbname filename : List Char) : List SysAction :=
  [.createDb dbname, .whichBinary "psql".data,
   .runProcess [psql_path, "service=albion_".data ++ dbname, "-f".data, filename],
   .dbUpdate, .createSections]

/-- The plugin's `__import_project` after extraction: locate the `.dump` and
`.qgs` entries with `find_in_dir`, take the database name from the dump's
base name without extension, and run the restore. -/
def import_pipeline (entries : List (List Char)) (psql_path : List Char) :
    Option (List SysAction) :=
  match find_in_dir entries ".dump".data, find_in_dir entries ".qgs".data with
  | some dump, some _prj =>
      some (import_project_run psql_path (splitext_stem (baseName dump)) dump)
  | _, _ => none

/-- C7: export shells out to `pg_dump` and writes a zip holding exactly
`<project>.dump` plus the QGIS project file; import locates the `.dump` and
`.qgs` entries, creates the database named after the dump file, and restores
it by shelling out to `psql` — in particular importing an exported archive
restores under the original project name. -/
theorem export_import_pipeline :
    (∀ name qgs, export_archive_entries name qgs =
      [name ++ ".dump".data, baseName qgs] ∧
      (export_archive_entries name qgs).length = 2) ∧
    export_project_run "/usr/bin/pg_dump".data "proj".data "/tmp/dump".data =
      [SysAction.whichBinary "pg_dump".data,
       SysAction.runProcess ["/usr/bin/pg_dump".data, "service=albion_proj".data,
         "-O".data, "-x".data, "-f".data, "/tmp/dump".data]] ∧
    import_pipeline ["proj.dump".data, "proj.qgs".data] "/usr/bin/psql".data =
      some [SysAction.createDb "proj".data, SysAction.whichBinary "psql".data,
        SysAction.runProcess ["/usr/bin/psql".data, "service=albion_proj".data,
          "-f".data, "proj.dump".data],
        SysAction.dbUpdate, SysAction.createSections] ∧
    import_pipeline (export_archive_entries "proj".data "/home/u/proj.qgs".data)
        "/usr/bin/psql".data =
      some [SysAction.createDb "proj".data, SysAction.whichBinary "psql".data,
        SysAction.runProcess ["/usr/bin/psql".data, "service=albion_proj".data,
          "-f".data, "proj.dump".data],
        SysAction.dbUpdate, SysAction.createSections] :=
  ⟨fun _ _ => ⟨rfl, rfl⟩, by decide, by decide, by decide⟩

end Albion
